import Mathlib

/-!
Verification of the spaceship-search driver (`src/main.rs`).

The development shallowly embeds the search-orchestration driver: the
`Sss` state machine (`Sss::search`), startup and checkpoint resumption
(`Opt::sss`, `Sss::from_save`, `Sss::write_save`, `main`), and the
run-length pattern encoder (`Sss::write_pat`).  The external rlifesrc
engine is opaque: a burst is modelled by the `Status` it returns, a
`Found` burst carrying the per-phase cell counts the driver reads back
through `cell_count_gen`.
-/

namespace Spaceships

/-- rlifesrc `NewState`: how the engine chooses the state of a fresh cell. -/
inductive NewState where
  | chooseDead
  | chooseAlive
  | random
  deriving Repr, DecidableEq

/-- The fields of the rlifesrc `Config` that the driver sets and reads:
grid bound, period, translation, symmetry, rule string, new-cell policy,
optional upper bound on the live-cell count, and the reduce-max flag.
Machine integers (`i32`) are modelled as `Int`; the `u32` bound as `Nat`. -/
structure Config where
  width : Int
  height : Int
  period : Int
  dx : Int
  dy : Int
  symmetry : String
  ruleString : String
  newState : NewState
  maxCellCount : Option Nat
  reduceMax : Bool
  deriving Repr, DecidableEq

/-- The command-line options consumed by `Opt::sss` (`struct Opt`). -/
structure Opt where
  period : Int
  dx : Int
  dy : Int
  symmetry : String
  rule : String
  maxWidth : Int
  initCellCount : Nat
  initHeight : Int
  deriving Repr, DecidableEq

/-- The driver state `struct Sss`: the current best cell count (`u32`),
the displayed generation (`i32`), and the live engine, of which the
driver only ever reads back the configuration.  The stopwatch is pure
presentation and is not modelled. -/
structure Sss where
  cellCount : Nat
  gen : Int
  config : Config
  deriving Repr, DecidableEq

/-- `Opt::sss`: build a fresh driver state from the command line.  The
engine bound is `Some(cell_count - 1)` when `cell_count > 0`, `None`
otherwise; the driver keeps `cell_count` itself. -/
def Opt.sss (o : Opt) : Sss :=
  { cellCount := o.initCellCount
    gen := 0
    config :=
      { width := o.maxWidth
        height := o.initHeight
        period := o.period
        dx := o.dx
        dy := o.dy
        symmetry := o.symmetry
        ruleString := o.rule
        newState := NewState.chooseDead
        maxCellCount :=
          if 0 < o.initCellCount then some (o.initCellCount - 1) else none
        reduceMax := true } }

/-- rlifesrc `WorldSer`, the serializable engine snapshot.  The engine
internals are opaque to the driver; the part the driver reads back after
restoring is the configuration.  serde-JSON round-tripping is the
serialization library's contract and is modelled at this level. -/
structure WorldSer where
  config : Config
  deriving Repr, DecidableEq

/-- `Sss::write_save`: snapshot the current world (`self.world.ser()`)
and overwrite the save file with it. -/
def Sss.writeSave (s : Sss) : WorldSer := ⟨s.config⟩

/-- `Sss::from_save` after a successful parse: rebuild the world from the
snapshot and reconstruct the best count as
`world.config().max_cell_count.map(|i| i + 1).unwrap_or(0)`. -/
def Sss.fromSave (w : WorldSer) : Sss :=
  { cellCount :=
      match w.config.maxCellCount with
      | some i => i + 1
      | none => 0
    gen := 0
    config := w.config }

/-- Reading and parsing the save file; the argument is `none` for any
load failure (missing file, unreadable file, malformed JSON, failed
world rebuild), `some w` for a successfully parsed snapshot. -/
def loadSave (file : Option WorldSer) : Except String Sss :=
  match file with
  | some w => Except.ok (Sss.fromSave w)
  | none => Except.error "load failure"

/-- `main`: `Sss::from_save(&save).or_else(|_| opt.sss())` — on any load
failure, fall back to a fresh build from the options, discarding the
error. -/
def startupSss (file : Option WorldSer) (o : Opt) : Sss :=
  match loadSave file with
  | Except.ok s => s
  | Except.error _ => o.sss

/-- rlifesrc `Status` as matched by `Sss::search`.  `Initial` and
`Searching` take the same match arm and are merged into `searching`.
A `found` burst carries the engine's per-phase live-cell counts, the
function the driver samples through `self.world.cell_count_gen(t)`. -/
inductive Status where
  | found (counts : Nat → Nat)
  | none
  | searching

/-- Rust `Iterator::min_by_key` on a nonempty list, keyed by the second
component: a left fold that replaces the accumulator only on a strictly
smaller key, so the first minimum wins on ties. -/
def minByKeyAux (a : Nat × Nat) : List (Nat × Nat) → Nat × Nat
  | [] => a
  | x :: xs => minByKeyAux (if x.2 < a.2 then x else a) xs

/-- Rust `Iterator::min_by_key`: `none` on an empty iterator. -/
def minByKey : List (Nat × Nat) → Option (Nat × Nat)
  | [] => none
  | x :: xs => some (minByKeyAux x xs)

/-- The phase scan of the `Found` arm:
`(0..period).map(|t| (t, cell_count_gen(t))).min_by_key(|p| p.1)`. -/
def foundSelect (period : Nat) (counts : Nat → Nat) : Option (Nat × Nat) :=
  minByKey ((List.range period).map fun t => (t, counts t))

/-- The driver state in the middle of the `Found` arm, when `display` and
`write_pat` run: `self.gen = min_gen; self.cell_count = min_cell_count`. -/
def Sss.foundDisplayState (s : Sss) (counts : Nat → Nat) : Option Sss :=
  match foundSelect s.config.period.toNat counts with
  | some (g, c) => some { s with gen := (g : Int), cellCount := c }
  | none => none

/-- One iteration of the `match status` in `Sss::search`.  A result of
`none` models abnormal termination: `min_by_key(..).unwrap()` of an
empty phase range, or the `u32` underflow in `self.cell_count - 1` when
the minimum reported count is `0` (an overflow error in Rust, checked in
debug builds; the spec calls it a fatal invariant violation).  The
`Status::None` arm clones the config, increments its height and rebuilds
the world from it; the `Searching` arm advances the displayed phase with
Rust's truncating `%`. -/
def Sss.step (s : Sss) (r : Status) : Option Sss :=
  match r with
  | Status.found counts =>
    match s.foundDisplayState counts with
    | some t =>
      if t.cellCount = 0 then none
      else
        some { t with
               gen := 0
               config := { t.config with maxCellCount := some (t.cellCount - 1) } }
    | none => none
  | Status.none =>
    some { s with
           gen := 0
           config := { s.config with height := s.config.height + 1 } }
  | Status.searching =>
    some { s with gen := (s.gen + 1).tmod s.config.period }

/-- Run the driver over a list of burst results, stopping on a panic. -/
def runFold : Sss → List Status → Option Sss
  | s, [] => some s
  | s, r :: rs =>
    match s.step r with
    | some t => runFold t rs
    | none => none

/-- Order on optional bounds, `none` meaning unbounded. -/
def boundLE : Option Nat → Option Nat → Prop
  | _, none => True
  | none, some _ => False
  | some a, some b => a ≤ b

/-- The engine contract for one burst: when the engine reports `Found`
while a bound `m` is set, the minimal per-phase cell count is at most
`m`.  (The engine itself is an external collaborator; this is the part
of its contract the ratchet relies on.) -/
def respectsBound (s : Sss) : Status → Prop
  | Status.found counts =>
      ∀ m g c, s.config.maxCellCount = some m →
        foundSelect s.config.period.toNat counts = some (g, c) → c ≤ m
  | _ => True

/-- The engine contract along a whole trace of bursts. -/
def RespectsTrace : Sss → List Status → Prop
  | _, [] => True
  | s, r :: rs =>
      respectsBound s r ∧ ∀ t, s.step r = some t → RespectsTrace t rs

/-- The character written for one cell in `Sss::write_pat`: `some 0` is
`DEAD`, `some 1` is `ALIVE`, `some (i + 2)` a higher state of a
Generations rule (`b'A' + i - 1`), and `none` an undecided cell. -/
def cellChar (isGenRule : Bool) : Option Nat → Char
  | some 0 => if isGenRule then '.' else 'b'
  | some 1 => if isGenRule then 'A' else 'o'
  | some (i + 2) => Char.ofNat (65 + i + 1)
  | none => '?'

/-- `str::trim_end_matches` with a character-class predicate: drop the
longest suffix all of whose characters satisfy `p`. -/
def trimEnd (p : Char → Bool) (l : List Char) : List Char :=
  (l.reverse.dropWhile p).reverse

/-- The trailing filler class `".b?".contains(c)` used on each row. -/
def isFiller (c : Char) : Bool := c == '.' || c == 'b' || c == '?'

/-- One row of the pattern: encode every cell, then strip the trailing
filler (`line.trim_end_matches(|c| ".b?".contains(c))`). -/
def rowLine (isGenRule : Bool) (row : List (Option Nat)) : List Char :=
  trimEnd isFiller (row.map (cellChar isGenRule))

/-- The `x` header field: the running `width.max(line.len())` over all
rows, starting from `0`. -/
def patWidth (isGenRule : Bool) (grid : List (List (Option Nat))) : Nat :=
  grid.foldl (fun w row => max w (rowLine isGenRule row).length) 0

/-- The uncompressed body: each stripped row followed by `'$'`, the rows
concatenated, the trailing run of `'$'` trimmed, and `'!'` appended. -/
def unrle (isGenRule : Bool) (grid : List (List (Option Nat))) : List Char :=
  trimEnd (fun c => c == '$')
      ((grid.map fun row => rowLine isGenRule row ++ ['$']).flatten)
    ++ ['!']

/-- Maximal runs of equal characters, scanned left to right with a
running count, as the `chars().peekable()` loop of `write_pat` does. -/
def runsAux (c : Char) (k : Nat) : List Char → List (Nat × Char)
  | [] => [(k, c)]
  | d :: ds => if d = c then runsAux c (k + 1) ds else (k, c) :: runsAux d 1 ds

/-- Maximal runs of equal characters of a stream. -/
def runs : List Char → List (Nat × Char)
  | [] => []
  | c :: cs => runsAux c 1 cs

/-- One emitted token: the decimal count when it exceeds `1`, then the
character (`run = count.to_string(); run.push(c)`). -/
def runToken (k : Nat) (c : Char) : List Char :=
  (if 1 < k then Nat.toDigits 10 k else []) ++ [c]

/-- The compressed token stream of the body. -/
def rleTokens (l : List Char) : List (List Char) :=
  (runs l).map fun r => runToken r.1 r.2

/-- The 70-column word wrap of `write_pat`: append a token to the open
line when the result stays within 70 characters, otherwise flush the
line and start a new one with the token; finally flush the open line. -/
def wrapAux (acc : List (List Char)) (line : List Char) :
    List (List Char) → List (List Char)
  | [] => acc ++ [line]
  | t :: ts =>
    if line.length + t.length ≤ 70 then wrapAux acc (line ++ t) ts
    else wrapAux (acc ++ [line]) t ts

/-- The wrapped output lines of a token stream. -/
def wrapLines (ts : List (List Char)) : List (List Char) :=
  wrapAux [] [] ts

/-- The body lines written by `write_pat` for one generation's grid. -/
def patBodyLines (isGenRule : Bool) (grid : List (List (Option Nat))) :
    List (List Char) :=
  wrapLines (rleTokens (unrle isGenRule grid))

/-- The header line `x = {}, y = {}, rule = {}`: the stripped width, the
number of grid rows (the loop emits one row per `y in 0..height`), and
the rule string. -/
def patHeader (isGenRule : Bool) (rule : List Char)
    (grid : List (List (Option Nat))) : List Char :=
  "x = ".data ++ Nat.toDigits 10 (patWidth isGenRule grid)
    ++ ", y = ".data ++ Nat.toDigits 10 grid.length
    ++ ", rule = ".data ++ rule

lemma minByKeyAux_append (x : Nat × Nat) :
    ∀ (l : List (Nat × Nat)) (a : Nat × Nat),
      minByKeyAux a (l ++ [x]) =
        if x.2 < (minByKeyAux a l).2 then x else minByKeyAux a l := by
  intro l
  induction l with
  | nil => intro a; rfl
  | cons y ys ih =>
    intro a
    show minByKeyAux (if y.2 < a.2 then y else a) (ys ++ [x]) = _
    rw [ih]
    rfl

lemma foundSelect_succ (n : Nat) (counts : Nat → Nat) (g c : Nat)
    (h : foundSelect n counts = some (g, c)) :
    foundSelect (n + 1) counts =
      some (if counts n < c then (n, counts n) else (g, c)) := by
  unfold foundSelect at h ⊢
  rw [List.range_succ]
  simp only [List.map_append, List.map_cons, List.map_nil]
  rcases hl : (List.range n).map (fun t => (t, counts t)) with _ | ⟨y, ys⟩
  · rw [hl] at h
    exact absurd h (by simp [minByKey])
  · rw [hl] at h
    simp only [minByKey, Option.some.injEq] at h
    simp only [List.cons_append, minByKey, Option.some.injEq]
    rw [minByKeyAux_append, h]

lemma foundSelect_spec (counts : Nat → Nat) :
    ∀ (p : Nat), 0 < p →
      ∃ g c, foundSelect p counts = some (g, c) ∧ g < p ∧ c = counts g ∧
        (∀ t, t < p → c ≤ counts t) ∧ ∀ t, t < g → c < counts t := by
  intro p
  induction p with
  | zero => intro h; exact absurd h (Nat.lt_irrefl 0)
  | succ n ih =>
    intro _
    rcases Nat.eq_zero_or_pos n with h0 | hn
    · subst h0
      refine ⟨0, counts 0, rfl, Nat.zero_lt_one, rfl, ?_, ?_⟩
      · intro t ht
        have ht0 : t = 0 := by omega
        subst ht0
        exact Nat.le_refl _
      · intro t ht
        exact absurd ht (Nat.not_lt_zero t)
    · obtain ⟨g, c, hsel, hg, hc, hmin, hfirst⟩ := ih hn
      rw [foundSelect_succ n counts g c hsel]
      by_cases hlt : counts n < c
      · rw [if_pos hlt]
        refine ⟨n, counts n, rfl, Nat.lt_succ_self n, rfl, ?_, ?_⟩
        · intro t ht
          have hsplit : t < n ∨ t = n := by omega
          rcases hsplit with h1 | h1
          · exact Nat.le_of_lt (Nat.lt_of_lt_of_le hlt (hmin t h1))
          · subst h1
            exact Nat.le_refl _
        · intro t ht
          exact Nat.lt_of_lt_of_le hlt (hmin t ht)
      · rw [if_neg hlt]
        refine ⟨g, c, rfl, Nat.lt_succ_of_lt hg, hc, ?_, hfirst⟩
        intro t ht
        have hsplit : t < n ∨ t = n := by omega
        rcases hsplit with h1 | h1
        · exact hmin t h1
        · subst h1
          exact Nat.le_of_not_lt hlt

/-- Claim C1: for every `Found` status, the driver scans all phases
`0..period`, computes each phase's live-cell count via the engine,
and selects the phase with the minimum count, ties broken by the lowest
phase index (the first minimum in increasing phase order); the selected
phase and its count become the displayed phase and the current best
count. -/
theorem found_selects_first_minimum_phase (s : Sss) (counts : Nat → Nat)
    (h : 0 < s.config.period) :
    ∃ g c, foundSelect s.config.period.toNat counts = some (g, c)
      ∧ (g : Int) < s.config.period
      ∧ c = counts g
      ∧ (∀ t, t < s.config.period.toNat → c ≤ counts t)
      ∧ (∀ t, t < g → c < counts t)
      ∧ s.foundDisplayState counts =
          some { s with gen := (g : Int), cellCount := c } := by
  have hp : 0 < s.config.period.toNat := by omega
  obtain ⟨g, c, hsel, hg, hc, hmin, hfirst⟩ := foundSelect_spec counts _ hp
  refine ⟨g, c, hsel, ?_, hc, hmin, hfirst, ?_⟩
  · omega
  · simp [Sss.foundDisplayState, hsel]

/-- A sample driver state: period 3, height 5, bound 10. -/
def sampleSss1 : Sss :=
  { cellCount := 11
    gen := 0
    config :=
      { width := 1024
        height := 5
        period := 3
        dx := 1
        dy := 2
        symmetry := "C1"
        ruleString := "B3/S23"
        newState := NewState.chooseDead
        maxCellCount := some 10
        reduceMax := true } }

/-- Sample per-phase counts with a tie at the minimum: 4, 3, 3. -/
def sampleCounts1 : Nat → Nat := fun t => if t = 0 then 4 else 3

/-- Witness for C1 at a state with period 3 and counts 4, 3, 3. -/
theorem found_selects_first_minimum_phase_witness :
    ∃ g c, foundSelect sampleSss1.config.period.toNat sampleCounts1 = some (g, c)
      ∧ (g : Int) < sampleSss1.config.period
      ∧ c = sampleCounts1 g
      ∧ (∀ t, t < sampleSss1.config.period.toNat → c ≤ sampleCounts1 t)
      ∧ (∀ t, t < g → c < sampleCounts1 t)
      ∧ sampleSss1.foundDisplayState sampleCounts1 =
          some { sampleSss1 with gen := (g : Int), cellCount := c } :=
  found_selects_first_minimum_phase sampleSss1 sampleCounts1 (by decide)

lemma boundLE_refl (b : Option Nat) : boundLE b b := by
  cases b <;> simp [boundLE]

lemma boundLE_trans (a b c : Option Nat) (h1 : boundLE a b) (h2 : boundLE b c) :
    boundLE a c := by
  cases a <;> cases b <;> cases c <;> simp_all [boundLE]
  omega

lemma step_found_eq (s : Sss) (counts : Nat → Nat) (g c : Nat)
    (hsel : foundSelect s.config.period.toNat counts = some (g, c))
    (hc : c ≠ 0) :
    s.step (Status.found counts) =
      some { s with
             gen := 0
             cellCount := c
             config := { s.config with maxCellCount := some (c - 1) } } := by
  simp [Sss.step, Sss.foundDisplayState, hsel, hc]

lemma step_found_zero (s : Sss) (counts : Nat → Nat) (g : Nat)
    (hsel : foundSelect s.config.period.toNat counts = some (g, 0)) :
    s.step (Status.found counts) = none := by
  simp [Sss.step, Sss.foundDisplayState, hsel]

lemma step_bound_mono (s : Sss) (r : Status) (t : Sss)
    (hr : respectsBound s r) (hst : s.step r = some t) :
    boundLE t.config.maxCellCount s.config.maxCellCount := by
  cases r with
  | found counts =>
    rcases hsel : foundSelect s.config.period.toNat counts with _ | ⟨g, c⟩
    · simp [Sss.step, Sss.foundDisplayState, hsel] at hst
    · by_cases hc : c = 0
      · subst hc
        rw [step_found_zero s counts g hsel] at hst
        cases hst
      · rw [step_found_eq s counts g c hsel hc] at hst
        obtain rfl := Option.some.inj hst
        rcases hm : s.config.maxCellCount with _ | m
        · simp [boundLE]
        · have hcm : c ≤ m := hr m g c hm hsel
          simp only [boundLE]
          omega
  | none =>
    obtain rfl := Option.some.inj hst
    exact boundLE_refl _
  | searching =>
    obtain rfl := Option.some.inj hst
    exact boundLE_refl _

lemma runFold_bound_mono :
    ∀ (rs : List Status) (s t : Sss), RespectsTrace s rs →
      runFold s rs = some t →
      boundLE t.config.maxCellCount s.config.maxCellCount := by
  intro rs
  induction rs with
  | nil =>
    intro s t _ h
    obtain rfl := Option.some.inj h
    exact boundLE_refl _
  | cons r rs ih =>
    intro s t hresp hrun
    obtain ⟨hr, hrest⟩ := hresp
    rcases hstep : s.step r with _ | u
    · rw [show runFold s (r :: rs) = none by simp [runFold, hstep]] at hrun
      cases hrun
    · rw [show runFold s (r :: rs) = runFold u rs by simp [runFold, hstep]] at hrun
      exact boundLE_trans _ _ _ (ih u t (hrest u hstep) hrun)
        (step_bound_mono s r u hr hstep)

/-- Claim C2: for every `Found` status with minimum count `best_count`,
when `best_count ≥ 1` the driver sets the configuration's max-cell-count
to `best_count - 1`; consequently, under the engine contract, the bound
is non-increasing across the bursts of a run (ratchet monotonicity); a
`Found` whose minimum count is `0` is a fatal invariant violation (the
`u32` subtraction underflows). -/
theorem ratchet_sets_bound_and_is_monotone (s : Sss) (counts : Nat → Nat)
    (g c : Nat)
    (hsel : foundSelect s.config.period.toNat counts = some (g, c)) :
    (c = 0 → s.step (Status.found counts) = none)
    ∧ (1 ≤ c → s.step (Status.found counts) =
        some { s with
               gen := 0
               cellCount := c
               config := { s.config with maxCellCount := some (c - 1) } })
    ∧ (∀ rs t, RespectsTrace s rs → runFold s rs = some t →
        boundLE t.config.maxCellCount s.config.maxCellCount) := by
  refine ⟨?_, ?_, ?_⟩
  · intro hc
    subst hc
    exact step_found_zero s counts g hsel
  · intro hc
    exact step_found_eq s counts g c hsel (by omega)
  · intro rs t hresp hrun
    exact runFold_bound_mono rs s t hresp hrun

/-- Sample per-phase counts that are constantly 3. -/
def sampleCounts2 : Nat → Nat := fun _ => 3

/-- Witness for C2: at a state with period 3 and bound 10, a `Found`
with constant counts 3 ratchets the bound down to 2. -/
theorem ratchet_sets_bound_witness :
    sampleSss1.step (Status.found sampleCounts2) =
      some { sampleSss1 with
             gen := 0
             cellCount := 3
             config := { sampleSss1.config with maxCellCount := some 2 } } :=
  (ratchet_sets_bound_and_is_monotone sampleSss1 sampleCounts2 0 3 rfl).2.1
    (by decide)

/-- Claim C3: for every `Exhausted` status (`Status::None`), the driver
increments the height by exactly 1, rebuilds the engine from the
configuration with the new height, leaves the max-cell-count bound and
every other configuration field unchanged, and resets the phase pointer
to 0; consequently the height never decreases under any status. -/
theorem exhausted_increments_height_and_preserves_rest (s : Sss) :
    (s.step Status.none =
      some { s with
             gen := 0
             config := { s.config with height := s.config.height + 1 } })
    ∧ (∀ t, s.step Status.none = some t →
        t.config.height = s.config.height + 1
        ∧ t.config.maxCellCount = s.config.maxCellCount
        ∧ t.config.width = s.config.width
        ∧ t.config.period = s.config.period
        ∧ t.config.dx = s.config.dx
        ∧ t.config.dy = s.config.dy
        ∧ t.config.symmetry = s.config.symmetry
        ∧ t.config.ruleString = s.config.ruleString
        ∧ t.config.newState = s.config.newState
        ∧ t.config.reduceMax = s.config.reduceMax
        ∧ t.cellCount = s.cellCount
        ∧ t.gen = 0)
    ∧ (∀ r t, s.step r = some t → s.config.height ≤ t.config.height) := by
  refine ⟨rfl, ?_, ?_⟩
  · intro t ht
    obtain rfl := Option.some.inj ht
    exact ⟨rfl, rfl, rfl, rfl, rfl, rfl, rfl, rfl, rfl, rfl, rfl, rfl⟩
  · intro r t ht
    cases r with
    | found counts =>
      rcases hsel : foundSelect s.config.period.toNat counts with _ | ⟨g, c⟩
      · simp [Sss.step, Sss.foundDisplayState, hsel] at ht
      · by_cases hc : c = 0
        · subst hc
          rw [step_found_zero s counts g hsel] at ht
          cases ht
        · rw [step_found_eq s counts g c hsel hc] at ht
          obtain rfl := Option.some.inj ht
          exact Int.le_refl _
    | none =>
      obtain rfl := Option.some.inj ht
      show s.config.height ≤ s.config.height + 1
      omega
    | searching =>
      obtain rfl := Option.some.inj ht
      exact Int.le_refl _

/-- Witness for C3 at the sample state: the height grows from 5 to 6 and
the bound stays 10. -/
theorem exhausted_increments_height_witness :
    sampleSss1.step Status.none =
      some { sampleSss1 with
             gen := 0
             config := { sampleSss1.config with
                         height := sampleSss1.config.height + 1 } }
    ∧ sampleSss1.config.height ≤
        { sampleSss1 with
          gen := 0
          config := { sampleSss1.config with
                      height := sampleSss1.config.height + 1 } }.config.height :=
  ⟨(exhausted_increments_height_and_preserves_rest sampleSss1).1,
   (exhausted_increments_height_and_preserves_rest sampleSss1).2.2
     Status.none _ rfl⟩

/-- Claim C4: resumption round-trip — loading the checkpoint written
mid-run reconstructs the driver's best count as the loaded engine's
max-cell-count bound plus 1 (or 0 if unset), so the resumed bound is the
bound in effect at save time, not the configuration's original initial
bound. -/
theorem save_roundtrip_restores_bound (s : Sss) :
    (Sss.fromSave s.writeSave).config = s.config
    ∧ (Sss.fromSave s.writeSave).config.maxCellCount = s.config.maxCellCount
    ∧ (Sss.fromSave s.writeSave).cellCount =
        (match s.config.maxCellCount with
         | some i => i + 1
         | none => 0)
    ∧ (∀ o : Opt, s.config.maxCellCount ≠ (o.sss).config.maxCellCount →
        (Sss.fromSave s.writeSave).config.maxCellCount ≠
          (o.sss).config.maxCellCount) := by
  refine ⟨rfl, rfl, rfl, ?_⟩
  intro o h
  exact h

/-- Sample command-line options with no initial cell-count bound. -/
def sampleOpt0 : Opt :=
  { period := 3
    dx := 1
    dy := 2
    symmetry := "C1"
    rule := "B3/S23"
    maxWidth := 1024
    initCellCount := 0
    initHeight := 1 }

/-- Witness for C4: resuming from the save of a state whose bound has
been ratcheted to 10 does not restore the unbounded initial config. -/
theorem save_roundtrip_restores_bound_witness :
    (Sss.fromSave sampleSss1.writeSave).config.maxCellCount ≠
      (sampleOpt0.sss).config.maxCellCount :=
  (save_roundtrip_restores_bound sampleSss1).2.2.2 sampleOpt0 (by decide)

/-- Claim C5: every checkpoint-load failure (missing file, malformed
content) makes startup fall back silently to a fresh engine built from
the supplied configuration; the failure is recoverable and the error is
discarded, while a successful load skips the build-from-config path. -/
theorem load_failure_falls_back_to_fresh_build (o : Opt) :
    loadSave none = Except.error "load failure"
    ∧ startupSss none o = o.sss
    ∧ (∀ w, startupSss (some w) o = Sss.fromSave w) :=
  ⟨rfl, rfl, fun _ => rfl⟩

/-- Claim C10: a fresh build from the command line turns an initial
cell count `c > 0` into the engine bound `c - 1` and `c = 0` into no
bound, while the driver's own best count starts at `c` itself — exactly
inverting the bound-plus-1-or-0 reconstruction used on resume. -/
theorem initial_bound_is_count_minus_one (o : Opt) :
    ((o.sss).config.maxCellCount =
      if 0 < o.initCellCount then some (o.initCellCount - 1) else none)
    ∧ (o.sss).cellCount = o.initCellCount
    ∧ (Sss.fromSave ((o.sss).writeSave)).cellCount = o.initCellCount := by
  refine ⟨rfl, rfl, ?_⟩
  show (match (o.sss).config.maxCellCount with
        | some i => i + 1
        | none => 0) = o.initCellCount
  simp only [Opt.sss]
  rcases hc : o.initCellCount with _ | k
  · simp
  · simp

lemma trimEnd_decomp (p : Char → Bool) (l : List Char) :
    ∃ pad, l = trimEnd p l ++ pad ∧ ∀ c ∈ pad, p c = true := by
  refine ⟨(l.reverse.takeWhile p).reverse, ?_, ?_⟩
  · have h : l.reverse.takeWhile p ++ l.reverse.dropWhile p = l.reverse :=
      List.takeWhile_append_dropWhile p l.reverse
    calc l = l.reverse.reverse := (List.reverse_reverse l).symm
    _ = (l.reverse.takeWhile p ++ l.reverse.dropWhile p).reverse := by rw [h]
    _ = (l.reverse.dropWhile p).reverse ++ (l.reverse.takeWhile p).reverse := by
        rw [List.reverse_append]
    _ = trimEnd p l ++ (l.reverse.takeWhile p).reverse := rfl
  · intro c hc
    rw [List.mem_reverse] at hc
    exact List.mem_takeWhile_imp hc

lemma head?_dropWhile_false (p : Char → Bool) :
    ∀ (m : List Char) (c : Char), (m.dropWhile p).head? = some c →
      p c = false := by
  intro m
  induction m with
  | nil => intro c h; cases h
  | cons d ds ih =>
    intro c h
    cases hd : p d
    · rw [List.dropWhile_cons] at h
      simp only [hd, Bool.false_eq_true, if_false, List.head?_cons,
        Option.some.injEq] at h
      subst h
      exact hd
    · rw [List.dropWhile_cons] at h
      simp only [hd, if_true] at h
      exact ih c h

lemma trimEnd_getLast?_false (p : Char → Bool) (l : List Char) (c : Char)
    (h : (trimEnd p l).getLast? = some c) : p c = false := by
  unfold trimEnd at h
  rw [List.getLast?_reverse] at h
  exact head?_dropWhile_false p l.reverse c h

/-- Claim C6: for every grid, each row's trailing dead/unknown filler is
stripped while the kept prefix — interior dead cells included — is
unchanged, rows are joined with the `'$'` row terminator, the trailing
run of `'$'` is trimmed from the very end, and a single `'!'` end marker
is appended before run-length compression; in particular a single row
`oo.o` produces the body `2obo` followed by `!`. -/
theorem rows_stripped_joined_trimmed (isGenRule : Bool)
    (grid : List (List (Option Nat))) (row : List (Option Nat)) :
    (∃ pad, row.map (cellChar isGenRule) = rowLine isGenRule row ++ pad
      ∧ ∀ c ∈ pad, isFiller c = true)
    ∧ (∀ c, (rowLine isGenRule row).getLast? = some c → isFiller c = false)
    ∧ (∃ body dollars,
        (grid.map fun r => rowLine isGenRule r ++ ['$']).flatten
          = body ++ dollars
        ∧ (∀ c ∈ dollars, c = '$')
        ∧ (∀ c, body.getLast? = some c → c ≠ '$')
        ∧ unrle isGenRule grid = body ++ ['!'])
    ∧ (rleTokens (unrle false [[some 1, some 1, some 0, some 1]])).flatten
        = "2obo!".data := by
  refine ⟨?_, ?_, ?_, by decide⟩
  · exact trimEnd_decomp isFiller (row.map (cellChar isGenRule))
  · intro c hc
    exact trimEnd_getLast?_false isFiller _ c hc
  · obtain ⟨pad, h1, h2⟩ := trimEnd_decomp (fun c => c == '$')
      ((grid.map fun r => rowLine isGenRule r ++ ['$']).flatten)
    refine ⟨trimEnd (fun c => c == '$')
        ((grid.map fun r => rowLine isGenRule r ++ ['$']).flatten),
      pad, h1, ?_, ?_, rfl⟩
    · intro c hc
      have hp := h2 c hc
      simpa using hp
    · intro c hc heq
      have hf := trimEnd_getLast?_false (fun x => x == '$') _ c hc
      rw [heq] at hf
      simp at hf

/-- A sample row: one live cell followed by two dead cells. -/
def sampleRow : List (Option Nat) := [some 1, some 0, some 0]

/-- Witness for C6: the stripped sample row ends in a non-filler `o`,
and the `oo.o` scenario body is `2obo!`. -/
theorem rows_stripped_joined_trimmed_witness :
    isFiller 'o' = false
    ∧ (rleTokens (unrle false [[some 1, some 1, some 0, some 1]])).flatten
        = "2obo!".data :=
  ⟨(rows_stripped_joined_trimmed false [] sampleRow).2.1 'o' (by decide),
   (rows_stripped_joined_trimmed false [] []).2.2.2⟩

lemma runsAux_count_le :
    ∀ (l : List Char) (c : Char) (k : Nat) (n : Nat) (d : Char),
      (n, d) ∈ runsAux c k l → n ≤ k + l.length := by
  intro l
  induction l with
  | nil =>
    intro c k n d h
    simp only [runsAux, List.mem_singleton, Prod.mk.injEq] at h
    obtain ⟨h1, -⟩ := h
    omega
  | cons e es ih =>
    intro c k n d h
    simp only [runsAux] at h
    by_cases he : e = c
    · rw [if_pos he] at h
      have := ih c (k + 1) n d h
      simp only [List.length_cons]
      omega
    · rw [if_neg he] at h
      rcases List.mem_cons.mp h with h1 | h2
      · have h1n : n = k := by
          have := congrArg Prod.fst h1
          simpa using this
        simp only [List.length_cons]
        omega
      · have := ih e 1 n d h2
        simp only [List.length_cons]
        omega

lemma runs_count_le (l : List Char) (n : Nat) (d : Char)
    (h : (n, d) ∈ runs l) : n ≤ l.length := by
  cases l with
  | nil => simp [runs] at h
  | cons c cs =>
    have := runsAux_count_le cs c 1 n d h
    simp only [List.length_cons]
    omega

lemma toDigits_length_le (n e : Nat) (hn : n < 10 ^ e) (he : 0 < e) :
    (Nat.toDigits 10 n).length ≤ e :=
  Nat.toDigitsCore_length 10 (by norm_num) (n + 1) n e hn he

lemma runToken_length_le (k : Nat) (c : Char) (hk : k < 10 ^ 69) :
    (runToken k c).length ≤ 70 := by
  unfold runToken
  by_cases h1 : 1 < k
  · rw [if_pos h1]
    rw [List.length_append, List.length_singleton]
    have := toDigits_length_le k 69 hk (by norm_num)
    omega
  · rw [if_neg h1]
    simp

lemma wrapAux_length_le :
    ∀ (ts : List (List Char)) (acc : List (List Char)) (line : List Char),
      (∀ l ∈ acc, l.length ≤ 70) → line.length ≤ 70 →
      (∀ t ∈ ts, t.length ≤ 70) →
      ∀ l ∈ wrapAux acc line ts, l.length ≤ 70 := by
  intro ts
  induction ts with
  | nil =>
    intro acc line hacc hline _ l hl
    simp only [wrapAux] at hl
    rcases List.mem_append.mp hl with h1 | h1
    · exact hacc l h1
    · rw [List.mem_singleton] at h1
      subst h1
      exact hline
  | cons t ts ih =>
    intro acc line hacc hline hts l hl
    simp only [wrapAux] at hl
    by_cases hfit : line.length + t.length ≤ 70
    · rw [if_pos hfit] at hl
      refine ih acc (line ++ t) hacc ?_ ?_ l hl
      · rw [List.length_append]
        omega
      · intro u hu
        exact hts u (List.mem_cons_of_mem t hu)
    · rw [if_neg hfit] at hl
      refine ih (acc ++ [line]) t ?_ (hts t (List.mem_cons_self t ts)) ?_ l hl
      · intro u hu
        rcases List.mem_append.mp hu with h1 | h1
        · exact hacc u h1
        · rw [List.mem_singleton] at h1
          subst h1
          exact hline
      · intro u hu
        exact hts u (List.mem_cons_of_mem t hu)

lemma wrapAux_chunks :
    ∀ (ts : List (List Char)) (acc : List (List Char)) (line : List Char),
      ∃ (c0 : List (List Char)) (cs : List (List (List Char))),
        wrapAux acc line ts
          = acc ++ (line ++ c0.flatten) :: cs.map List.flatten
        ∧ c0 ++ cs.flatten = ts := by
  intro ts
  induction ts with
  | nil =>
    intro acc line
    refine ⟨[], [], ?_, rfl⟩
    simp [wrapAux]
  | cons t ts ih =>
    intro acc line
    simp only [wrapAux]
    by_cases hfit : line.length + t.length ≤ 70
    · rw [if_pos hfit]
      obtain ⟨c0, cs, h1, h2⟩ := ih acc (line ++ t)
      refine ⟨t :: c0, cs, ?_, ?_⟩
      · rw [h1]
        simp [List.flatten_cons, List.append_assoc]
      · simpa using h2
    · rw [if_neg hfit]
      obtain ⟨c0, cs, h1, h2⟩ := ih (acc ++ [line]) t
      refine ⟨[], (t :: c0) :: cs, ?_, ?_⟩
      · rw [h1]
        simp [List.flatten_cons, List.append_assoc]
      · simp [List.flatten_cons, h2]

/-- Claim C7: for every grid, no body line of the encoder output exceeds
70 characters (under the a-priori bound that the uncompressed body is
shorter than `10 ^ 69` characters, so every `<count>` fits in 69
digits — the Rust counter is an `i32`, far below this), and every line
is a concatenation of whole `<count><symbol>` tokens: the lines arise
from a partition of the token stream, so no wrap splits a token. -/
theorem body_lines_wrap_at_70 (isGenRule : Bool)
    (grid : List (List (Option Nat)))
    (h : (unrle isGenRule grid).length < 10 ^ 69) :
    (∀ line ∈ patBodyLines isGenRule grid, line.length ≤ 70)
    ∧ (∃ chunks : List (List (List Char)),
        chunks.flatten = rleTokens (unrle isGenRule grid)
        ∧ patBodyLines isGenRule grid = chunks.map List.flatten) := by
  have htok : ∀ t ∈ rleTokens (unrle isGenRule grid), t.length ≤ 70 := by
    intro t ht
    simp only [rleTokens, List.mem_map] at ht
    obtain ⟨⟨k, c⟩, hmem, rfl⟩ := ht
    exact runToken_length_le k c
      (lt_of_le_of_lt (runs_count_le (unrle isGenRule grid) k c hmem) h)
  constructor
  · intro line hl
    refine wrapAux_length_le (rleTokens (unrle isGenRule grid)) [] []
      ?_ (by simp) htok line hl
    intro u hu
    cases hu
  · obtain ⟨c0, cs, h1, h2⟩ :=
      wrapAux_chunks (rleTokens (unrle isGenRule grid)) [] []
    refine ⟨c0 :: cs, ?_, ?_⟩
    · rw [List.flatten_cons]
      exact h2
    · show wrapAux [] [] (rleTokens (unrle isGenRule grid)) = _
      rw [h1]
      simp

/-- Witness for C7: in the `oo.o` scenario the single body line `2obo!`
is within 70 characters. -/
theorem body_lines_wrap_at_70_witness :
    (['2', 'o', 'b', 'o', '!'] : List Char).length ≤ 70 :=
  (body_lines_wrap_at_70 false [[some 1, some 1, some 0, some 1]]
      (by decide)).1 ['2', 'o', 'b', 'o', '!'] (by decide)

/-- Claim C8 counterexample: an all-dead 1×1 grid with rule `B3/S23` is
written with header `x = 0, y = 1, rule = B3/S23` — the `y` field is the
grid height 1, not 0 as the claim states. -/
theorem header_of_1x1_dead_grid_counterexample :
    patHeader false "B3/S23".data [[some 0]]
      ≠ "x = 0, y = 0, rule = B3/S23".data := by
  decide

/-- Claim C8 amended: for an all-dead 1×1 grid with a single phase, the
encoder emits the header `x = 0, y = 1, rule = <R>` — the width is 0
after stripping, but the `y` field is the grid height, 1 — and a body of
just the end marker `!`. -/
theorem header_of_1x1_dead_grid :
    patHeader false "B3/S23".data [[some 0]]
      = "x = 0, y = 1, rule = B3/S23".data
    ∧ patBodyLines false [[some 0]] = ["!".data] := by
  exact ⟨by decide, by decide⟩

/-- Claim C9 counterexample: a grid row `o?o` with an interior unknown
cell is not encoded like dead cells (which would give body `obo!`). -/
theorem unknown_not_encoded_as_dead_counterexample :
    unrle false [[some 1, none, some 1]] ≠ "obo!".data := by
  decide

/-- Claim C9 amended: an `unknown` cell in a written grid is encoded as
the literal `?` character, distinct from the two-state dead-cell code
`b`; only a trailing run of unknowns is stripped from a row, exactly as
trailing dead cells are. -/
theorem unknown_encoded_as_question_mark :
    cellChar false none = '?'
    ∧ cellChar true none = '?'
    ∧ unrle false [[some 1, none, some 1]] = "o?o!".data
    ∧ unrle false [[some 1, none]] = unrle false [[some 1, some 0]]
    ∧ unrle false [[some 1, none]] = "o!".data := by
  decide

end Spaceships
